import Mathlib

/-!
# Verification of the file download engine

Shallow embedding of `src/automas/mcp/servers/download/server.py`:
the filename sanitizer, URL filename derivation, collision-safe path
resolution, the single-file streaming download state machine and the
batch orchestrator, together with proofs of the specification claims.

Strings are modelled as Lean `String` / `List Char`; the Python source
operates on `str` and the translation is character by character.
-/

namespace Download

/-! ## `_sanitize_filename` (server.py lines 55-67) -/

/-- The character class of `re.sub` in `_sanitize_filename`:
the nine filesystem-illegal characters and the C0 control range
`\x00`-`\x1f`. -/
def isIllegalChar (c : Char) : Bool :=
  c == '<' || c == '>' || c == ':' || c == '"' || c == '/' || c == '\\' ||
  c == '|' || c == '?' || c == '*' || decide (c.toNat ≤ 31)

/-- The characters stripped by `sanitized.strip(". ")`. -/
def isStripChar (c : Char) : Bool := c == '.' || c == ' '

/-- `re.sub(r'[<>:"/\\|?*\x00-\x1f]', "_", filename)`. -/
def replaceIllegal (l : List Char) : List Char :=
  l.map fun c => if isIllegalChar c then '_' else c

/-- Python `str.strip(". ")`: remove leading and trailing dots and
spaces. -/
def pyStrip (l : List Char) : List Char :=
  ((l.dropWhile isStripChar).reverse.dropWhile isStripChar).reverse

/-- Python `str.rfind('.')` (as an `Option`): index of the last dot. -/
def rfindDot (l : List Char) : Option Nat :=
  if l.contains '.' then
    some (l.length - 1 - (l.reverse.takeWhile (fun c => !(c == '.'))).length)
  else none

/-- The index where `pathlib` splits a name into stem and suffix:
the last dot, provided it is neither the first nor the last
character (CPython: `0 < i < len(name) - 1`). -/
def suffixIdx (l : List Char) : Option Nat :=
  match rfindDot l with
  | some i => if 0 < i ∧ i + 1 < l.length then some i else none
  | none => none

/-- `Path(name).stem` for a name with no path separator. -/
def pyStem (l : List Char) : List Char :=
  match suffixIdx l with
  | some i => l.take i
  | none => l

/-- `Path(name).suffix` for a name with no path separator. -/
def pySuffix (l : List Char) : List Char :=
  match suffixIdx l with
  | some i => l.drop i
  | none => []

/-- Python slicing `l[:n]` where `n` may be negative (counting from
the end, clamped at zero). -/
def pySliceTo (l : List Char) (n : Int) : List Char :=
  if n < 0 then l.take (l.length - (-n).toNat) else l.take n.toNat

/-- `if not sanitized: sanitized = "downloaded_file"`. -/
def emptyFallback (s : List Char) : List Char :=
  if s = [] then "downloaded_file".data else s

/-- `if len(sanitized) > 255: ... name[:max_name_len] + ext` where
`max_name_len = 255 - len(ext)` (an `int` that can go negative, hence
the Python slice semantics of `pySliceTo`). -/
def truncate255 (s : List Char) : List Char :=
  if 255 < s.length then
    pySliceTo (pyStem s) ((255 : Int) - (pySuffix s).length) ++ pySuffix s
  else s

/-- `_sanitize_filename` on the character list: replace illegal
characters, strip dots and spaces, substitute the placeholder for an
empty result, and truncate the stem when the name exceeds 255
characters. -/
def sanitizeList (l : List Char) : List Char :=
  truncate255 (emptyFallback (pyStrip (replaceIllegal l)))

/-- `_sanitize_filename` (server.py lines 55-67). -/
def sanitizeFilename (s : String) : String := ⟨sanitizeList s.data⟩

/-! ## Sanitizer lemmas -/

/-- Every character the replacement step produces is legal. -/
theorem replaceIllegal_no_illegal (l : List Char) :
    ∀ c ∈ replaceIllegal l, isIllegalChar c = false := by
  intro c hc
  simp only [replaceIllegal, List.mem_map] at hc
  obtain ⟨a, -, rfl⟩ := hc
  cases h : isIllegalChar a
  · simp [h]
  · simp only [h, if_true]
    decide

/-- The replacement step fixes a string that is already clean. -/
theorem replaceIllegal_eq_self {l : List Char}
    (h : ∀ c ∈ l, isIllegalChar c = false) : replaceIllegal l = l := by
  induction l with
  | nil => rfl
  | cons a t ih =>
    simp only [replaceIllegal, List.map_cons] at *
    rw [if_neg (by simp [h a (List.mem_cons_self a t)]),
      ih fun c hc => h c (List.mem_cons_of_mem a hc)]

/-- Stripping only removes characters. -/
theorem pyStrip_subset (l : List Char) : pyStrip l ⊆ l := by
  intro c hc
  simp only [pyStrip, List.mem_reverse] at hc
  have h1 := List.dropWhile_subset (l := (l.dropWhile isStripChar).reverse) isStripChar hc
  rw [List.mem_reverse] at h1
  exact List.dropWhile_subset isStripChar h1

/-- The head surviving a `dropWhile` does not satisfy the predicate. -/
theorem head?_dropWhile_eq_false {α : Type} {p : α → Bool} {l : List α} {c : α}
    (h : (l.dropWhile p).head? = some c) : p c = false := by
  have := List.head?_dropWhile_not p l
  rw [h] at this
  exact this

/-- `dropWhile` fixes a list whose head does not satisfy the
predicate. -/
theorem dropWhile_eq_self_of_head {α : Type} {p : α → Bool} {l : List α}
    (h : ∀ c, l.head? = some c → p c = false) : l.dropWhile p = l := by
  cases l with
  | nil => rfl
  | cons a t => exact List.dropWhile_cons_of_neg (by simp [h a rfl])

/-- A list with no leading and no trailing dot or space, as
`str.strip(". ")` guarantees for its output. -/
def Stripped (l : List Char) : Prop :=
  (∀ c, l.head? = some c → isStripChar c = false) ∧
  (∀ c, l.getLast? = some c → isStripChar c = false)

/-- The last element surviving a `dropWhile` is the last element of
the input. -/
theorem getLast?_dropWhile {α : Type} {c : α} (p : α → Bool) (l : List α)
    (h : (l.dropWhile p).getLast? = some c) : l.getLast? = some c := by
  obtain ⟨s, hs⟩ := List.dropWhile_suffix (l := l) p
  rw [← hs, List.getLast?_append, h]
  rfl

/-- The output of `pyStrip` is stripped. -/
theorem pyStrip_stripped (l : List Char) : Stripped (pyStrip l) := by
  constructor
  · intro c hc
    simp only [pyStrip, List.head?_reverse] at hc
    have h2 := getLast?_dropWhile isStripChar (l.dropWhile isStripChar).reverse hc
    rw [List.getLast?_reverse] at h2
    exact head?_dropWhile_eq_false h2
  · intro c hc
    simp only [pyStrip, List.getLast?_reverse] at hc
    exact head?_dropWhile_eq_false hc

/-- `pyStrip` fixes a stripped list. -/
theorem pyStrip_eq_self {l : List Char} (h : Stripped l) : pyStrip l = l := by
  unfold pyStrip
  rw [dropWhile_eq_self_of_head h.1,
    dropWhile_eq_self_of_head (fun c hc => h.2 c (by rwa [List.head?_reverse] at hc)),
    List.reverse_reverse]

/-- `truncate255` fixes a short enough list. -/
theorem truncate255_of_le {s : List Char} (h : s.length ≤ 255) :
    truncate255 s = s := by
  unfold truncate255
  rw [if_neg (by omega)]

/-- The sanitizer fixes a clean, stripped, nonempty, short name. -/
theorem sanitizeList_of_clean {l : List Char} (hstr : Stripped l)
    (hni : ∀ c ∈ l, isIllegalChar c = false) (hne : l ≠ [])
    (hlen : l.length ≤ 255) : sanitizeList l = l := by
  unfold sanitizeList emptyFallback
  rw [replaceIllegal_eq_self hni, pyStrip_eq_self hstr, if_neg hne,
    truncate255_of_le hlen]

/-- The empty-input branch of the sanitizer. -/
theorem sanitizeList_eq_placeholder {l : List Char}
    (h0 : pyStrip (replaceIllegal l) = []) :
    sanitizeList l = "downloaded_file".data := by
  unfold sanitizeList emptyFallback
  rw [h0, if_pos rfl, truncate255_of_le (by decide)]

/-- The no-truncation branch of the sanitizer. -/
theorem sanitizeList_eq_strip {l : List Char}
    (h0 : pyStrip (replaceIllegal l) ≠ [])
    (hle : (pyStrip (replaceIllegal l)).length ≤ 255) :
    sanitizeList l = pyStrip (replaceIllegal l) := by
  unfold sanitizeList emptyFallback
  rw [if_neg h0, truncate255_of_le hle]

/-- The truncation branch of the sanitizer. -/
theorem sanitizeList_eq_truncate {l : List Char}
    (h0 : pyStrip (replaceIllegal l) ≠ [])
    (hgt : 255 < (pyStrip (replaceIllegal l)).length) :
    sanitizeList l =
      pySliceTo (pyStem (pyStrip (replaceIllegal l)))
        ((255 : Int) - (pySuffix (pyStrip (replaceIllegal l))).length) ++
        pySuffix (pyStrip (replaceIllegal l)) := by
  unfold sanitizeList emptyFallback truncate255
  rw [if_neg h0, if_pos hgt]

theorem pyStem_subset (l : List Char) : pyStem l ⊆ l := by
  unfold pyStem
  split
  · exact List.take_subset _ _
  · exact fun c hc => hc

theorem pySuffix_subset (l : List Char) : pySuffix l ⊆ l := by
  unfold pySuffix
  split
  · exact List.drop_subset _ _
  · exact fun c hc => by cases hc

theorem pySliceTo_subset (l : List Char) (n : Int) : pySliceTo l n ⊆ l := by
  unfold pySliceTo
  split <;> exact List.take_subset _ _

/-- A valid suffix index is interior: neither first nor last. -/
theorem suffixIdx_bounds {l : List Char} {i : Nat} (h : suffixIdx l = some i) :
    0 < i ∧ i + 1 < l.length := by
  unfold suffixIdx at h
  split at h
  · split at h
    · cases h; assumption
    · cases h
  · cases h

theorem pySuffix_of_none {l : List Char} (h : suffixIdx l = none) :
    pySuffix l = [] := by unfold pySuffix; rw [h]

theorem pyStem_of_none {l : List Char} (h : suffixIdx l = none) :
    pyStem l = l := by unfold pyStem; rw [h]

theorem pySuffix_of_some {l : List Char} {i : Nat} (h : suffixIdx l = some i) :
    pySuffix l = l.drop i := by unfold pySuffix; rw [h]

theorem length_pySliceTo_le {l : List Char} {n : Int} (hn : 0 ≤ n) :
    (pySliceTo l n).length ≤ n.toNat := by
  unfold pySliceTo
  rw [if_neg (by omega)]
  exact List.length_take_le _ _

/-- The truncated name is never empty. -/
theorem truncate_ne_nil {s0 : List Char} (hgt : 255 < s0.length) :
    pySliceTo (pyStem s0) ((255 : Int) - (pySuffix s0).length) ++ pySuffix s0 ≠ [] := by
  cases hsi : suffixIdx s0 with
  | none =>
    rw [pySuffix_of_none hsi, pyStem_of_none hsi]
    have : (pySliceTo s0 ((255 : Int) - ([] : List Char).length)).length = 255 := by
      unfold pySliceTo
      rw [if_neg (by simp)]
      simp
      omega
    intro hnil
    rw [List.append_nil] at hnil
    rw [hnil] at this
    simp at this
  | some i =>
    have hb := suffixIdx_bounds hsi
    rw [pySuffix_of_some hsi]
    intro hnil
    have := List.append_eq_nil.mp hnil
    have hd : (s0.drop i).length = 0 := by rw [this.2]; rfl
    rw [List.length_drop] at hd
    omega

/-- The placeholder name is stripped. -/
theorem stripped_placeholder : Stripped "downloaded_file".data := by
  constructor
  · intro c hc
    have h : ("downloaded_file".data).head? = some 'd' := by decide
    rw [h] at hc
    cases hc
    decide
  · intro c hc
    have h : ("downloaded_file".data).getLast? = some 'e' := by decide
    rw [h] at hc
    cases hc
    decide

/-- **C5** (amended).  For every input string the sanitized filename
contains none of the nine illegal characters and no C0 control
character, is never empty, and is the placeholder `downloaded_file`
exactly when replacing and stripping leaves nothing.  When the
stripped name fits in 255 characters the result additionally has no
leading or trailing dot or space and length at most 255.  When it
exceeds 255 characters the result is a prefix of the stem followed by
the extension; its length is at most 255 provided the extension
itself has at most 255 characters (the original claim's
unconditional 255 bound and absence of leading dots fail in the
truncation branch, see the counterexample). -/
theorem c5_sanitize_amended (s : String) :
    (∀ c ∈ (sanitizeFilename s).data, isIllegalChar c = false) ∧
    (sanitizeFilename s).data ≠ [] ∧
    (pyStrip (replaceIllegal s.data) = [] → sanitizeFilename s = "downloaded_file") ∧
    ((pyStrip (replaceIllegal s.data)).length ≤ 255 →
      (sanitizeFilename s).length ≤ 255 ∧ Stripped (sanitizeFilename s).data) ∧
    (255 < (pyStrip (replaceIllegal s.data)).length →
      ((sanitizeFilename s).data =
        pySliceTo (pyStem (pyStrip (replaceIllegal s.data)))
          ((255 : Int) - (pySuffix (pyStrip (replaceIllegal s.data))).length) ++
          pySuffix (pyStrip (replaceIllegal s.data)) ∧
        ((pySuffix (pyStrip (replaceIllegal s.data))).length ≤ 255 →
          (sanitizeFilename s).length ≤ 255))) := by
  have hdata : (sanitizeFilename s).data = sanitizeList s.data := rfl
  have hlen : (sanitizeFilename s).length = (sanitizeList s.data).length := rfl
  by_cases h0 : pyStrip (replaceIllegal s.data) = []
  · have hres := sanitizeList_eq_placeholder h0
    refine ⟨?_, ?_, ?_, ?_, ?_⟩
    · rw [hdata, hres]; decide
    · rw [hdata, hres]; decide
    · intro _
      show (⟨sanitizeList s.data⟩ : String) = _
      rw [hres]
    · intro _
      constructor
      · rw [hlen, hres]; decide
      · rw [hdata, hres]; exact stripped_placeholder
    · intro hgt
      rw [h0] at hgt
      simp at hgt
  · by_cases hgt : 255 < (pyStrip (replaceIllegal s.data)).length
    · have hres := sanitizeList_eq_truncate h0 hgt
      refine ⟨?_, ?_, ?_, ?_, ?_⟩
      · intro c hc
        rw [hdata, hres] at hc
        rcases List.mem_append.mp hc with hc | hc
        · exact replaceIllegal_no_illegal _ c
            (pyStrip_subset _ (pyStem_subset _ (pySliceTo_subset _ _ hc)))
        · exact replaceIllegal_no_illegal _ c
            (pyStrip_subset _ (pySuffix_subset _ hc))
      · rw [hdata, hres]; exact truncate_ne_nil hgt
      · intro h; exact absurd h h0
      · intro hle; omega
      · intro _
        refine ⟨by rw [hdata, hres], ?_⟩
        intro hext
        rw [hlen, hres, List.length_append]
        have hsl := length_pySliceTo_le
          (l := pyStem (pyStrip (replaceIllegal s.data)))
          (n := (255 : Int) - (pySuffix (pyStrip (replaceIllegal s.data))).length)
          (by omega)
        omega
    · have hle : (pyStrip (replaceIllegal s.data)).length ≤ 255 := by omega
      have hres := sanitizeList_eq_strip h0 hle
      refine ⟨?_, ?_, ?_, ?_, ?_⟩
      · intro c hc
        rw [hdata, hres] at hc
        exact replaceIllegal_no_illegal _ c (pyStrip_subset _ hc)
      · rw [hdata, hres]; exact h0
      · intro h; exact absurd h h0
      · intro _
        constructor
        · rw [hlen, hres]; omega
        · rw [hdata, hres]; exact pyStrip_stripped _
      · intro h; omega

set_option maxRecDepth 10000 in
/-- **C5** counterexample.  The input `"a." ++ 300 b's` (length 302,
already clean and stripped) sanitizes to `"." ++ 300 b's`: length 301
exceeds 255, and the result has a leading dot — the extension is
longer than 255 characters, so `name[:255 - len(ext)]` slices the
one-character stem to nothing and the oversized extension is kept
whole. -/
theorem c5_counterexample :
    255 < (sanitizeFilename ⟨'a' :: '.' :: List.replicate 300 'b'⟩).length ∧
      (sanitizeFilename ⟨'a' :: '.' :: List.replicate 300 'b'⟩).data.head? = some '.' := by
  decide

/-- **C5** witness: the amended theorem applied at `"a/b:c*d"`. -/
theorem c5_witness :
    (∀ c ∈ (sanitizeFilename "a/b:c*d").data, isIllegalChar c = false) ∧
      (sanitizeFilename "a/b:c*d").length ≤ 255 := by
  have h := c5_sanitize_amended "a/b:c*d"
  exact ⟨h.1, (h.2.2.2.1 (by decide)).1⟩

/-- **C10** (amended).  The sanitizer is idempotent on every input
whose replaced-and-stripped form fits in 255 characters, i.e.
whenever the truncation branch is not taken.  (Truncation can expose
a new leading or trailing strip character, which a second pass
removes — see the counterexample.) -/
theorem c10_sanitize_idempotent_amended (s : String)
    (h : (pyStrip (replaceIllegal s.data)).length ≤ 255) :
    sanitizeFilename (sanitizeFilename s) = sanitizeFilename s := by
  have hdata : (sanitizeFilename s).data = sanitizeList s.data := rfl
  show (⟨sanitizeList (sanitizeFilename s).data⟩ : String) = sanitizeFilename s
  by_cases h0 : pyStrip (replaceIllegal s.data) = []
  · have hres := sanitizeList_eq_placeholder h0
    have hval : sanitizeFilename s = "downloaded_file" := by
      show (⟨sanitizeList s.data⟩ : String) = _
      rw [hres]
    rw [hval]
    decide
  · have hres := sanitizeList_eq_strip h0 h
    have hfix : sanitizeList (sanitizeFilename s).data = (sanitizeFilename s).data := by
      rw [hdata, hres]
      exact sanitizeList_of_clean (pyStrip_stripped _)
        (fun c hc => replaceIllegal_no_illegal _ c (pyStrip_subset _ hc)) h0 h
    rw [hfix]

set_option maxRecDepth 10000 in
/-- **C10** counterexample.  For the clean 258-character input
`254 a's ++ " " ++ "bbb"` the sanitizer truncates to
`254 a's ++ " "` (length 255, trailing space); a second application
strips that space, so the two outputs differ. -/
theorem c10_counterexample :
    sanitizeFilename (sanitizeFilename ⟨List.replicate 254 'a' ++ ' ' :: List.replicate 3 'b'⟩) ≠
      sanitizeFilename ⟨List.replicate 254 'a' ++ ' ' :: List.replicate 3 'b'⟩ := by
  decide

/-- **C10** witness: the amended theorem applied at `"report.pdf"`. -/
theorem c10_witness :
    (pyStrip (replaceIllegal ("report.pdf" : String).data)).length ≤ 255 ∧
      sanitizeFilename (sanitizeFilename "report.pdf") = sanitizeFilename "report.pdf" :=
  ⟨by decide, c10_sanitize_idempotent_amended "report.pdf" (by decide)⟩

/-! ## Decimal rendering of integers

Python renders the collision counter (and the sizes in error
messages) with `str(int)` / f-string interpolation.  `decRepr` is
that decimal rendering; the fuel argument of `decDigitsCore` makes
the recursion structural (`n` itself is always enough fuel since
`n / 10 < n`). -/

/-- Little-endian decimal digits of `n`, with fuel. -/
def decDigitsCore : Nat → Nat → List Char
  | 0, _ => []
  | _, 0 => []
  | fuel + 1, n + 1 =>
    Char.ofNat (48 + (n + 1) % 10) :: decDigitsCore fuel ((n + 1) / 10)

/-- The decimal rendering of a natural number, as Python `str`. -/
def decRepr (n : Nat) : List Char :=
  if n = 0 then ['0'] else (decDigitsCore n n).reverse

/-- Little-endian decimal valuation, the inverse of `decDigitsCore`. -/
def valLE : List Char → Nat
  | [] => 0
  | c :: r => (c.toNat - 48) + 10 * valLE r

theorem toNat_digitChar {m : Nat} (hm : m < 10) :
    (Char.ofNat (48 + m)).toNat = 48 + m := by
  interval_cases m <;> decide

theorem valLE_decDigitsCore :
    ∀ fuel n, n ≤ fuel → valLE (decDigitsCore fuel n) = n := by
  intro fuel
  induction fuel with
  | zero =>
    intro n hn
    interval_cases n
    rfl
  | succ fuel ih =>
    intro n hn
    match n with
    | 0 => rfl
    | m + 1 =>
      have hd : (m + 1) / 10 ≤ fuel := by
        have := Nat.div_lt_self (Nat.succ_pos m) (show 1 < 10 by decide)
        omega
      show valLE (Char.ofNat (48 + (m + 1) % 10) :: decDigitsCore fuel ((m + 1) / 10)) = m + 1
      simp only [valLE]
      rw [toNat_digitChar (Nat.mod_lt _ (by decide)), ih _ hd]
      omega

theorem valLE_reverse_decRepr (n : Nat) : valLE (decRepr n).reverse = n := by
  unfold decRepr
  by_cases h : n = 0
  · subst h; decide
  · rw [if_neg h, List.reverse_reverse]
    exact valLE_decDigitsCore n n (Nat.le_refl n)

theorem decRepr_injective {a b : Nat} (h : decRepr a = decRepr b) : a = b := by
  have ha := valLE_reverse_decRepr a
  rw [h, valLE_reverse_decRepr] at ha
  exact ha.symm

/-! ## `_get_unique_filepath` (server.py lines 96-109)

The candidate's directory is fixed throughout the loop, so the model
works at the level of file names: `fs` is the list of names that
exist in the destination directory and `name ∈ fs` models
`file_path.exists()`. -/

/-- `f"{stem}_{counter}{suffix}"`: the candidate with a numeric
suffix appended before the extension. -/
def counterName (name : List Char) (k : Nat) : List Char :=
  pyStem name ++ ('_' :: decRepr k) ++ pySuffix name

/-- The collision-avoidance loop.  The fuel stands for the source's
unbounded `while True`; `exists_free_counter` below shows that
`|fs| + 1` iterations always reach a free name, so the fuel-zero arm
is never taken with the fuel `uniqueName` supplies. -/
def uniqueNameAux (fs : List String) (name : List Char) : Nat → Nat → String
  | 0, k => ⟨counterName name k⟩
  | fuel + 1, k =>
    if (⟨counterName name k⟩ : String) ∈ fs then uniqueNameAux fs name fuel (k + 1)
    else ⟨counterName name k⟩

/-- `_get_unique_filepath`: return the candidate unchanged if free,
otherwise try `stem_1`, `stem_2`, … until a free name is found. -/
def uniqueName (fs : List String) (name : String) : String :=
  if name ∈ fs then uniqueNameAux fs name.data (fs.length + 1) 1 else name

theorem counterName_injective {name : List Char} {j k : Nat}
    (h : counterName name j = counterName name k) : j = k := by
  unfold counterName at h
  have h1 := List.append_cancel_right h
  have h2 := List.append_cancel_left h1
  injection h2 with h3 h4
  exact decRepr_injective h4

/-- Pigeonhole: among `|fs| + 1` consecutive counters some candidate
name is not taken. -/
theorem exists_free_counter (fs : List String) (name : List Char) (start : Nat) :
    ∃ m, m ≤ fs.length ∧ (⟨counterName name (start + m)⟩ : String) ∉ fs := by
  by_contra hc
  push_neg at hc
  have hinj : Function.Injective fun m => (⟨counterName name (start + m)⟩ : String) := by
    intro a b hab
    have : counterName name (start + a) = counterName name (start + b) := congrArg String.data hab
    have := counterName_injective this
    omega
  have hnodup : ((List.range (fs.length + 1)).map
      fun m => (⟨counterName name (start + m)⟩ : String)).Nodup :=
    List.Nodup.map hinj (List.nodup_range _)
  have hsub : ((List.range (fs.length + 1)).map
      fun m => (⟨counterName name (start + m)⟩ : String)).toFinset ⊆ fs.toFinset := by
    intro x hx
    rw [List.mem_toFinset] at hx ⊢
    obtain ⟨m, hm, rfl⟩ := List.mem_map.mp hx
    exact hc m (by simpa [Nat.lt_succ_iff] using List.mem_range.mp hm)
  have h1 : ((List.range (fs.length + 1)).map
      fun m => (⟨counterName name (start + m)⟩ : String)).toFinset.card = fs.length + 1 := by
    rw [List.toFinset_card_of_nodup hnodup]
    simp
  have h2 := Finset.card_le_card hsub
  have h3 := fs.toFinset_card_le
  omega

/-- What the loop returns: the first free candidate at or after the
starting counter, provided one is within the fuel. -/
theorem uniqueNameAux_spec (fs : List String) (name : List Char) :
    ∀ fuel start, (∃ m, m < fuel ∧ (⟨counterName name (start + m)⟩ : String) ∉ fs) →
      ∃ m, m < fuel ∧ (∀ j, j < m → (⟨counterName name (start + j)⟩ : String) ∈ fs) ∧
        (⟨counterName name (start + m)⟩ : String) ∉ fs ∧
        uniqueNameAux fs name fuel start = ⟨counterName name (start + m)⟩ := by
  intro fuel
  induction fuel with
  | zero =>
    rintro start ⟨m, hm, -⟩
    omega
  | succ fuel ih =>
    rintro start ⟨m, hm, hfree⟩
    by_cases h0 : (⟨counterName name start⟩ : String) ∈ fs
    · have hm' : ∃ m', m' < fuel ∧ (⟨counterName name (start + 1 + m')⟩ : String) ∉ fs := by
        cases m with
        | zero => exact absurd (by simpa using h0) hfree
        | succ m =>
          exact ⟨m, by omega, by rwa [show start + 1 + m = start + (m + 1) by omega]⟩
      obtain ⟨m', hlt, hall, hfree', heq⟩ := ih (start + 1) hm'
      refine ⟨m' + 1, by omega, ?_, ?_, ?_⟩
      · intro j hj
        cases j with
        | zero => simpa using h0
        | succ j =>
          have := hall j (by omega)
          rwa [show start + 1 + j = start + (j + 1) by omega] at this
      · rwa [show start + 1 + m' = start + (m' + 1) by omega] at hfree'
      · simp only [uniqueNameAux, if_pos h0]
        rw [heq, show start + 1 + m' = start + (m' + 1) by omega]
    · refine ⟨0, by omega, fun j hj => absurd hj (by omega), by simpa using h0, ?_⟩
      simp only [uniqueNameAux, if_neg h0]
      rw [Nat.add_zero]

/-- The full specification of `uniqueName`, used by the claim
theorem (both for the first and for the second download). -/
theorem uniqueName_spec (fs : List String) (name : String) :
    uniqueName fs name ∉ fs ∧
    (name ∉ fs → uniqueName fs name = name) ∧
    (name ∈ fs →
      ∃ k, 1 ≤ k ∧ uniqueName fs name = ⟨counterName name.data k⟩ ∧
        ∀ j, 1 ≤ j → j < k → (⟨counterName name.data j⟩ : String) ∈ fs) := by
  by_cases hmem : name ∈ fs
  · obtain ⟨m, hm, hfree⟩ := exists_free_counter fs name.data 1
    have hex : ∃ m', m' < fs.length + 1 ∧
        (⟨counterName name.data (1 + m')⟩ : String) ∉ fs := ⟨m, by omega, hfree⟩
    obtain ⟨m', hlt, hall, hfree', heq⟩ := uniqueNameAux_spec fs name.data (fs.length + 1) 1 hex
    have hval : uniqueName fs name = ⟨counterName name.data (1 + m')⟩ := by
      unfold uniqueName
      rw [if_pos hmem, heq]
    refine ⟨by rw [hval]; exact hfree', fun h => absurd hmem h, fun _ => ⟨1 + m', by omega, hval, ?_⟩⟩
    intro j h1 hj
    have := hall (j - 1) (by omega)
    rwa [show 1 + (j - 1) = j by omega] at this
  · have hval : uniqueName fs name = name := by
      unfold uniqueName
      rw [if_neg hmem]
    exact ⟨by rw [hval]; exact hmem, fun _ => hval, fun h => absurd h hmem⟩

/-- **C6**: the collision resolver returns a path that does not exist
at resolution time: a free candidate is returned unchanged, a taken
candidate gets the first free numeric suffix `_1`, `_2`, … before the
extension (all smaller counters being taken); consequently
downloading the same derived filename into the same directory twice
yields two distinct names, the second carrying a numeric suffix. -/
theorem c6_unique_filepath (fs : List String) (name : String) :
    uniqueName fs name ∉ fs ∧
    (name ∉ fs → uniqueName fs name = name) ∧
    (name ∈ fs →
      ∃ k, 1 ≤ k ∧ uniqueName fs name = ⟨counterName name.data k⟩ ∧
        ∀ j, 1 ≤ j → j < k → (⟨counterName name.data j⟩ : String) ∈ fs) ∧
    (name ∉ fs →
      uniqueName (uniqueName fs name :: fs) name ≠ uniqueName fs name ∧
      ∃ k, 1 ≤ k ∧ uniqueName (uniqueName fs name :: fs) name = ⟨counterName name.data k⟩) := by
  obtain ⟨hfree, hsame, htaken⟩ := uniqueName_spec fs name
  refine ⟨hfree, hsame, htaken, fun hnot => ?_⟩
  have h1 : uniqueName fs name = name := hsame hnot
  obtain ⟨hfree2, -, htaken2⟩ := uniqueName_spec (uniqueName fs name :: fs) name
  have hmem2 : name ∈ uniqueName fs name :: fs := by rw [h1]; exact List.mem_cons_self _ _
  obtain ⟨k, hk, hval2, -⟩ := htaken2 hmem2
  exact ⟨fun hcontra => hfree2 (by rw [hcontra]; exact List.mem_cons_self _ _), k, hk, hval2⟩

/-- **C6** witness: the claim theorem applied at a taken and at a
free concrete name. -/
theorem c6_witness :
    uniqueName ["data.json"] "data.json" ∉ ["data.json"] ∧
      uniqueName ([] : List String) "a.txt" = "a.txt" := by
  refine ⟨(c6_unique_filepath ["data.json"] "data.json").1, ?_⟩
  exact (c6_unique_filepath ([] : List String) "a.txt").2.1 (by decide)

/-! ## `urllib.parse` model

`_extract_filename_from_url` reads `parsed_url.path` and
`parsed_url.query` of `urllib.parse.urlparse`.  The parser below
follows CPython's `urlsplit` (unsafe-byte removal, scheme split,
netloc split with the IPv6 bracket `ValueError`, fragment then query
split) plus `urlparse`'s params split on the last path segment. -/

/-- CPython removes tab, CR and LF from a URL before parsing. -/
def isUnsafeUrlChar (c : Char) : Bool := c == '\t' || c == '\r' || c == '\n'

def removeUnsafe (l : List Char) : List Char := l.filter fun c => !(isUnsafeUrlChar c)

/-- `scheme_chars` of `urllib.parse`. -/
def isSchemeChar (c : Char) : Bool :=
  c.isAlpha || c.isDigit || c == '+' || c == '-' || c == '.'

/-- The scheme split of `urlsplit`: chars before the first colon form
the scheme (lowercased) when the first is a letter and all are scheme
characters; otherwise there is no scheme and the URL is unchanged. -/
def splitScheme (l : List Char) : List Char × List Char :=
  let pre := l.takeWhile fun c => !(c == ':')
  if pre.length < l.length && decide (0 < pre.length) && pre.all isSchemeChar &&
      (match pre.head? with | some c => c.isAlpha | none => false) then
    (pre.map Char.toLower, l.drop (pre.length + 1))
  else ([], l)

/-- `_splitnetloc` plus the IPv6 bracket validation of `urlsplit`;
`none` models the `ValueError` raised on mismatched brackets. -/
def splitNetloc (l : List Char) : Option (List Char × List Char) :=
  match l with
  | '/' :: '/' :: rest =>
    let netloc := rest.takeWhile fun c => !(c == '/' || c == '?' || c == '#')
    if netloc.contains '[' ≠ netloc.contains ']' then none
    else some (netloc, rest.drop netloc.length)
  | _ => some ([], l)

/-- `_splitparams` of `urlparse`: drop the `;params` part of the last
path segment. -/
def splitParams (l : List Char) : List Char :=
  if l.contains '/' then
    let trailing := (l.reverse.takeWhile fun c => !(c == '/')).length
    let pos := l.length - 1 - trailing
    let seg := l.drop pos
    let k := (seg.takeWhile fun c => !(c == ';')).length
    if k < seg.length then l.take (pos + k) else l
  else
    let k := (l.takeWhile fun c => !(c == ';')).length
    if k < l.length then l.take k else l

/-- The fields of the parse result that the extractor reads. -/
structure UrlParts where
  scheme : List Char
  netloc : List Char
  path : List Char
  query : List Char
deriving DecidableEq

/-- `urllib.parse.urlparse(url)`, restricted to the fields the
filename extractor reads.  `none` models the `ValueError` on an
invalid IPv6 netloc — the one exception the `try` in
`_extract_filename_from_url` can observe. -/
def pyUrlparse (url : String) : Option UrlParts :=
  let l := removeUnsafe url.data
  let sr := splitScheme l
  match splitNetloc sr.2 with
  | none => none
  | some nr =>
    let preFrag := nr.2.takeWhile fun c => !(c == '#')
    let path0 := preFrag.takeWhile fun c => !(c == '?')
    let query := if path0.length < preFrag.length then preFrag.drop (path0.length + 1) else []
    some ⟨sr.1, nr.1, splitParams path0, query⟩

def hexDigitVal (c : Char) : Option Nat :=
  if '0' ≤ c ∧ c ≤ '9' then some (c.toNat - 48)
  else if 'a' ≤ c ∧ c ≤ 'f' then some (c.toNat - 87)
  else if 'A' ≤ c ∧ c ≤ 'F' then some (c.toNat - 55)
  else none

/-- `urllib.parse.unquote`, modelled byte for byte: a valid escape
`%XY` becomes the character of code `0xXY`, an invalid one is kept
literally, as CPython does per `%`-segment.  This is exact for ASCII
escapes; a multi-byte UTF-8 escape sequence is rendered one character
per byte rather than as the decoded code point — a difference that
affects none of the proved properties (emptiness and occurrence of
ASCII characters such as `'.'` agree, since UTF-8 decoding maps
non-ASCII byte groups to non-ASCII characters). -/
def pyUnquoteCore : Nat → List Char → List Char
  | 0, l => l
  | _ + 1, [] => []
  | fuel + 1, c :: rest =>
    if c == '%' then
      match rest with
      | a :: b :: rest2 =>
        match hexDigitVal a, hexDigitVal b with
        | some x, some y => Char.ofNat (16 * x + y) :: pyUnquoteCore fuel rest2
        | _, _ => '%' :: pyUnquoteCore fuel rest
      | _ => '%' :: pyUnquoteCore fuel rest
    else c :: pyUnquoteCore fuel rest

/-- The scan of `pyUnquoteCore` with enough fuel (each step consumes
one unit of fuel and at least one character, so the fuel-0 arm is
only ever reached on the empty remainder, where returning it
unchanged is also correct). -/
def pyUnquote (l : List Char) : List Char := pyUnquoteCore l.length l

/-- `urllib.parse.unquote_plus`: `+` becomes a space, then unquote. -/
def pyUnquotePlus (l : List Char) : List Char :=
  pyUnquote (l.map fun c => if c == '+' then ' ' else c)

/-- Python `str.split(sep)` for a one-character separator (keeps
empty fields). -/
def splitOnChar (sep : Char) : List Char → List (List Char)
  | [] => [[]]
  | c :: rest =>
    match splitOnChar sep rest with
    | [] => [[c]]
    | h :: t => if c == sep then [] :: h :: t else (c :: h) :: t

/-- `urllib.parse.parse_qsl` with default arguments
(`keep_blank_values=False`, separator `&`): empty fields, fields
without `=` and fields with an empty raw value are dropped; names and
values are `unquote_plus`-decoded. -/
def parseQsl (q : List Char) : List (List Char × List Char) :=
  (splitOnChar '&' q).filterMap fun part =>
    if part.isEmpty then none
    else
      let n := part.takeWhile fun c => !(c == '=')
      if n.length = part.length then none
      else
        let v := part.drop (n.length + 1)
        if v.isEmpty then none
        else some (pyUnquotePlus n, pyUnquotePlus v)

/-- `key in query_params` / `query_params[key][0]` over `parse_qs`:
the first value listed for `key`, if any. -/
def qsFirst (q : List Char) (key : String) : Option (List Char) :=
  ((parseQsl q).find? fun p => p.1 == key.data).map Prod.snd

/-- `Path(path).name` (POSIX): the last path component, after
dropping empty and `.` components. -/
def pathBaseName (p : List Char) : List Char :=
  (((splitOnChar '/' p).filter fun comp => !(comp.isEmpty) && !(comp == ['.'])).getLast?).getD []

/-- `if "." not in filename: filename = f"{filename}.bin"`. -/
def ensureBin (l : List Char) : List Char :=
  if l.contains '.' then l else l ++ ".bin".data

/-- The body of `_extract_filename_from_url`'s `try` block, given
the parse result: basename of the path (percent-decoded), falling
back to the query keys `file`, `filename`, `name` in that order, then
to the placeholder; default extension appended; sanitized. -/
def extractCore (parts : UrlParts) : String :=
  let fn0 := pyUnquote (pathBaseName parts.path)
  let fn1 :=
    if fn0.isEmpty then
      match qsFirst parts.query "file" with
      | some v => v
      | none =>
        match qsFirst parts.query "filename" with
        | some v => v
        | none =>
          match qsFirst parts.query "name" with
          | some v => v
          | none => []
    else fn0
  let fn2 := if fn1.isEmpty then "downloaded_file".data else fn1
  sanitizeFilename ⟨ensureBin fn2⟩

/-- `_extract_filename_from_url` (server.py lines 70-93).  The
`except` arm returns the placeholder with its default extension. -/
def extractFilenameFromUrl (url : String) : String :=
  match pyUrlparse url with
  | none => "downloaded_file.bin"
  | some parts => extractCore parts

/-! ## Extraction lemmas -/

theorem pyUnquoteCore_ne_nil (fuel : Nat) {l : List Char} (h : l ≠ []) :
    pyUnquoteCore fuel l ≠ [] := by
  cases fuel with
  | zero => exact h
  | succ fuel =>
    cases l with
    | nil => exact absurd rfl h
    | cons c rest =>
      by_cases hc : c == '%'
      · cases rest with
        | nil => simp [pyUnquoteCore, hc]
        | cons a rest1 =>
          cases rest1 with
          | nil => simp [pyUnquoteCore, hc]
          | cons b rest2 =>
            cases hx : hexDigitVal a <;> cases hy : hexDigitVal b <;>
              simp [pyUnquoteCore, hc, hx, hy]
      · simp [pyUnquoteCore, hc]

theorem pyUnquote_ne_nil {l : List Char} (h : l ≠ []) : pyUnquote l ≠ [] :=
  pyUnquoteCore_ne_nil l.length h

/-- The sanitizer never returns the empty list. -/
theorem sanitizeList_ne_nil (l : List Char) : sanitizeList l ≠ [] := by
  by_cases h0 : pyStrip (replaceIllegal l) = []
  · rw [sanitizeList_eq_placeholder h0]; decide
  · by_cases hgt : 255 < (pyStrip (replaceIllegal l)).length
    · rw [sanitizeList_eq_truncate h0 hgt]; exact truncate_ne_nil hgt
    · rw [sanitizeList_eq_strip h0 (by omega)]; exact h0

/-- The sanitizer never returns the empty string. -/
theorem sanitizeFilename_ne_empty (s : String) : sanitizeFilename s ≠ "" := by
  intro h
  exact sanitizeList_ne_nil s.data (congrArg String.data h)

/-- Every value `parse_qsl` emits is nonempty (the raw value was
nonempty and decoding never empties a nonempty string). -/
theorem parseQsl_val_ne_nil {q : List Char} {p : List Char × List Char}
    (h : p ∈ parseQsl q) : p.2 ≠ [] := by
  unfold parseQsl at h
  rw [List.mem_filterMap] at h
  obtain ⟨part, hmem, heq⟩ := h
  dsimp only at heq
  split at heq
  · cases heq
  · split at heq
    · cases heq
    · split at heq
      · cases heq
      · rename_i hv
        cases heq
        show pyUnquotePlus _ ≠ []
        unfold pyUnquotePlus
        apply pyUnquote_ne_nil
        intro hmap
        rw [List.map_eq_nil_iff] at hmap
        rw [hmap] at hv
        exact hv rfl

/-- A query value the extractor picks up is nonempty. -/
theorem qsFirst_ne_nil {q : List Char} {key : String} {v : List Char}
    (h : qsFirst q key = some v) : v ≠ [] := by
  unfold qsFirst at h
  cases hf : (parseQsl q).find? fun p => p.1 == key.data with
  | none => rw [hf] at h; cases h
  | some p =>
    rw [hf, Option.map_some'] at h
    cases h
    exact parseQsl_val_ne_nil (List.mem_of_find?_eq_some hf)

theorem extractCore_of_base {parts : UrlParts}
    (h : pyUnquote (pathBaseName parts.path) ≠ []) :
    extractCore parts =
      sanitizeFilename ⟨ensureBin (pyUnquote (pathBaseName parts.path))⟩ := by
  have h1 : (pyUnquote (pathBaseName parts.path)).isEmpty = false := by simpa using h
  unfold extractCore
  simp [h1]

theorem extractCore_file {parts : UrlParts}
    (hb : pyUnquote (pathBaseName parts.path) = [])
    {v : List Char} (hf : qsFirst parts.query "file" = some v) :
    extractCore parts = sanitizeFilename ⟨ensureBin v⟩ := by
  have hv : v.isEmpty = false := by simpa using qsFirst_ne_nil hf
  unfold extractCore
  simp [hb, hf, hv]

theorem extractCore_filename {parts : UrlParts}
    (hb : pyUnquote (pathBaseName parts.path) = [])
    (h1 : qsFirst parts.query "file" = none)
    {v : List Char} (hf : qsFirst parts.query "filename" = some v) :
    extractCore parts = sanitizeFilename ⟨ensureBin v⟩ := by
  have hv : v.isEmpty = false := by simpa using qsFirst_ne_nil hf
  unfold extractCore
  simp [hb, h1, hf, hv]

theorem extractCore_name {parts : UrlParts}
    (hb : pyUnquote (pathBaseName parts.path) = [])
    (h1 : qsFirst parts.query "file" = none)
    (h2 : qsFirst parts.query "filename" = none)
    {v : List Char} (hf : qsFirst parts.query "name" = some v) :
    extractCore parts = sanitizeFilename ⟨ensureBin v⟩ := by
  have hv : v.isEmpty = false := by simpa using qsFirst_ne_nil hf
  unfold extractCore
  simp [hb, h1, h2, hf, hv]

theorem extractCore_default {parts : UrlParts}
    (hb : pyUnquote (pathBaseName parts.path) = [])
    (h1 : qsFirst parts.query "file" = none)
    (h2 : qsFirst parts.query "filename" = none)
    (h3 : qsFirst parts.query "name" = none) :
    extractCore parts = "downloaded_file.bin" := by
  unfold extractCore
  simp only [hb, h1, h2, h3, List.isEmpty_nil, if_true]
  decide

theorem extractCore_ne_empty (parts : UrlParts) : extractCore parts ≠ "" :=
  sanitizeFilename_ne_empty _

/-- **C7**: with no caller-supplied filename the name is derived from
the URL path component (basename, percent-decoded); an empty path
name falls back to the query keys `file`, `filename`, `name` in that
priority order; if still empty the placeholder is used; a name
without a dot gets the default `.bin` extension (all then
sanitized); and the derivation is total — a URL the parser rejects
yields the placeholder name, and the result is never empty. -/
theorem c7_extract_filename (url : String) :
    (pyUrlparse url = none → extractFilenameFromUrl url = "downloaded_file.bin") ∧
    (∀ parts, pyUrlparse url = some parts →
      (pyUnquote (pathBaseName parts.path) ≠ [] →
        extractFilenameFromUrl url =
          sanitizeFilename ⟨ensureBin (pyUnquote (pathBaseName parts.path))⟩) ∧
      (pyUnquote (pathBaseName parts.path) = [] →
        (∀ v, qsFirst parts.query "file" = some v →
          extractFilenameFromUrl url = sanitizeFilename ⟨ensureBin v⟩) ∧
        (qsFirst parts.query "file" = none →
          (∀ v, qsFirst parts.query "filename" = some v →
            extractFilenameFromUrl url = sanitizeFilename ⟨ensureBin v⟩) ∧
          (qsFirst parts.query "filename" = none →
            (∀ v, qsFirst parts.query "name" = some v →
              extractFilenameFromUrl url = sanitizeFilename ⟨ensureBin v⟩) ∧
            (qsFirst parts.query "name" = none →
              extractFilenameFromUrl url = "downloaded_file.bin"))))) ∧
    extractFilenameFromUrl url ≠ "" := by
  refine ⟨?_, ?_, ?_⟩
  · intro h
    unfold extractFilenameFromUrl
    rw [h]
  · intro parts hp
    have hval : extractFilenameFromUrl url = extractCore parts := by
      unfold extractFilenameFromUrl
      rw [hp]
    rw [hval]
    exact ⟨fun h => extractCore_of_base h,
      fun hb => ⟨fun v hf => extractCore_file hb hf,
        fun h1 => ⟨fun v hf => extractCore_filename hb h1 hf,
          fun h2 => ⟨fun v hf => extractCore_name hb h1 h2 hf,
            fun h3 => extractCore_default hb h1 h2 h3⟩⟩⟩⟩
  · unfold extractFilenameFromUrl
    cases pyUrlparse url with
    | none => decide
    | some parts => exact extractCore_ne_empty parts

set_option maxRecDepth 4000 in
/-- **C7** witness: the claim theorem applied at a URL the parser
rejects (mismatched IPv6 bracket) and at an ordinary URL. -/
theorem c7_witness :
    extractFilenameFromUrl "http://[half" = "downloaded_file.bin" ∧
      extractFilenameFromUrl "https://example.com/files/report.pdf" ≠ "" := by
  refine ⟨(c7_extract_filename "http://[half").1 (by decide), ?_⟩
  exact (c7_extract_filename "https://example.com/files/report.pdf").2.2

/-! ## `_download_single_file_internal` (server.py lines 112-209)

The streaming fetcher is embedded as a function of an `Env`
describing the behaviour of the filesystem and of the remote server
for the one URL being fetched: the outcome of `mkdir`, of the HEAD
probe, of the GET stream (content type, the chunk lengths
`aiter_bytes` yields, an optional mid-iteration transport error), of
`open`, and the set of file names already present in the destination
directory.  The `timeout` parameter only configures the HTTP client,
so it does not appear: its expiry surfaces as a transport-error
outcome in the environment. -/

/-- Python `int(str)` digit scan: decimal digits with single
underscores strictly between digits. -/
def pyDigits : List Char → Nat → Option Nat
  | [], acc => some acc
  | '_' :: [], _ => none
  | '_' :: c :: rest, acc =>
    if c.isDigit then pyDigits rest (acc * 10 + (c.toNat - 48)) else none
  | c :: rest, acc =>
    if c.isDigit then pyDigits rest (acc * 10 + (c.toNat - 48)) else none

/-- ASCII whitespace stripped by Python `int(str)`. -/
def isPyWs (c : Char) : Bool :=
  c == ' ' || c == '\t' || c == '\n' || c == '\r' || c == '\x0b' || c == '\x0c'

/-- Python `int(str)`: optional surrounding whitespace, optional
sign, then digits; `none` models the `ValueError` on anything
else. -/
def pyInt (s : String) : Option Int :=
  let l := ((s.data.dropWhile isPyWs).reverse.dropWhile isPyWs).reverse
  match l with
  | '+' :: c :: rest =>
    if c.isDigit then (pyDigits rest (c.toNat - 48)).map Int.ofNat else none
  | '-' :: c :: rest =>
    if c.isDigit then (pyDigits rest (c.toNat - 48)).map (fun n => -(n : Int)) else none
  | c :: rest =>
    if c.isDigit then (pyDigits rest (c.toNat - 48)).map Int.ofNat else none
  | [] => none

/-- `str(n)` for a natural number. -/
def natStr (n : Nat) : String := ⟨decRepr n⟩

/-- The f-string `f"{bytes/(1024*1024):.2f}"` rendering of a byte
count in megabytes, idealized to exact rational rounding (half up)
of the quotient to two decimals.  CPython formats the nearest binary
double, which can differ in the last digit for quotients within one
ulp of a half-multiple; no property proved here depends on that —
only on the rendering being a function of the byte count. -/
def fmtMB (bytes : Nat) : String :=
  let c := (bytes * 100 + 524288) / 1048576
  natStr (c / 100) ++ "." ++ (if c % 100 < 10 then "0" else "") ++ natStr (c % 100)

/-- `str` of the `ValueError` raised at server.py line 122. -/
def invalidUrlMsg : String := "Invalid URL format. URL must start with http:// or https://"

/-- `str` of the `ValueError` raised by `int()` on a malformed
Content-Length header (the CPython message quotes the repr of the
argument; only nonemptiness of the message matters here). -/
def intParseMsg (s : String) : String :=
  "invalid literal for int() with base 10: " ++ s

/-- `str` of the `ValueError` raised at server.py lines 158-160. -/
def headSizeMsg (size : Int) (maxMb : Nat) : String :=
  "File size (" ++ fmtMB size.toNat ++ " MB) exceeds maximum allowed size (" ++
    natStr maxMb ++ " MB)"

/-- `str` of the `ValueError` raised at server.py lines 178-180. -/
def midSizeMsg (bytes : Nat) (maxMb : Nat) : String :=
  "File exceeded size limit during download (" ++ fmtMB bytes ++ " MB > " ++
    natStr maxMb ++ " MB)"

/-- Outcome of `client.head(url)`.  `statusErr` is an
`httpx.HTTPStatusError` — the only class the probe's `except`
swallows; `err` is any other exception (connection error, timeout,
reset), which that `except` clause does not catch. -/
inductive HeadOutcome where
  | ok (contentLength : Option String)
  | statusErr (msg : String)
  | err (msg : String)
deriving DecidableEq

/-- Outcome of `client.stream("GET", url)` plus `raise_for_status`:
an exception with its message, or a response carrying an optional
content type, the chunk lengths `aiter_bytes` delivers, and
optionally a transport error raised mid-iteration after those
chunks. -/
inductive GetOutcome where
  | err (msg : String)
  | ok (contentType : Option String) (chunks : List Nat) (tail : Option String)
deriving DecidableEq

/-- The environment one download runs against. -/
structure Env where
  mkdirErr : Option String
  head : HeadOutcome
  get : GetOutcome
  openErr : Option String
  fsExisting : List String
deriving DecidableEq

/-- Externally observable requests, for the no-network-call
properties. -/
inductive Ev where
  | mkdirE
  | headE
  | getE
deriving DecidableEq

/-- `DownloadResult` (server.py lines 40-46). -/
structure DownloadResult where
  file_path : String
  file_name : String
  file_size : Nat
  content_type : Option String
  success : Bool
  error : Option String
deriving DecidableEq

/-- `DownloadResponse` (server.py lines 49-52). -/
structure DownloadResponse where
  results : List DownloadResult
  success_count : Nat
  failed_count : Nat
deriving DecidableEq

/-- A download outcome with its observable effects: which requests
were issued, and whether a file written by this call remains at the
resolved target path (`some size`) or not (`none`). -/
structure DlOut where
  result : DownloadResult
  events : List Ev
  written : Option Nat
deriving DecidableEq

inductive ProbeResult where
  | proceed
  | failMsg (msg : String)
deriving DecidableEq

/-- The pre-flight probe (server.py lines 150-162): HEAD request,
then `int(content-length)` when the header is present and truthy,
then the size comparison.  An `HTTPStatusError` is swallowed by the
`except`; any other HEAD exception fails the whole download, because
the `except` clause names only `httpx.HTTPStatusError`. -/
def probeStage (h : HeadOutcome) (maxBytes : Nat) (maxMb : Nat) : ProbeResult :=
  match h with
  | .err m => .failMsg m
  | .statusErr _ => .proceed
  | .ok none => .proceed
  | .ok (some cl) =>
    if cl = "" then .proceed
    else
      match pyInt cl with
      | none => .failMsg (intParseMsg cl)
      | some size =>
        if (maxBytes : Int) < size then .failMsg (headSizeMsg size maxMb) else .proceed

inductive StreamEnd where
  | done (total : Nat)
  | exceeded (downloaded : Nat)
deriving DecidableEq

/-- The chunk loop (server.py lines 170-182): add each chunk's
length to the running total, abort as soon as the total exceeds the
budget (the offending chunk is not written), otherwise write and
continue. -/
def runStream (maxBytes : Nat) : List Nat → Nat → StreamEnd
  | [], written => .done written
  | c :: rest, written =>
    if maxBytes < written + c then .exceeded (written + c)
    else runStream maxBytes rest (written + c)

/-- `url.startswith(("http://", "https://"))`. -/
def pyStartsWithHttp (url : String) : Bool :=
  "http://".data.isPrefixOf url.data || "https://".data.isPrefixOf url.data

/-- The failure `DownloadResult` built by the `except` arm (lines
198-209): empty path, zero size, no content type, and the `filename`
variable as it stood when the exception was raised (`filename or ""`). -/
def failResult (fname : Option String) (msg : String) : DownloadResult :=
  ⟨"", fname.getD "", 0, none, false, some msg⟩

/-- `_download_single_file_internal` (server.py lines 112-209):
validate the scheme, create the directory, resolve the name
(caller-supplied name sanitized, otherwise derived from the URL),
pick a collision-free path, probe, stream under the byte budget with
deletion of the partial file on a mid-stream size abort, and return
a structured result in every case.  A mid-stream transport error
(`tail`) leaves the partial file in place — the source's accepted
trade-off. -/
def downloadSingle (env : Env) (url : String) (outputDir : String)
    (filename? : Option String) (maxMb : Nat) : DlOut :=
  if pyStartsWithHttp url then
    match env.mkdirErr with
    | some m => ⟨failResult filename? m, [.mkdirE], none⟩
    | none =>
      let fname := match filename? with
        | none => extractFilenameFromUrl url
        | some f => sanitizeFilename f
      let finalName := uniqueName env.fsExisting fname
      let fpath := outputDir ++ "/" ++ finalName
      let maxBytes := maxMb * 1024 * 1024
      match probeStage env.head maxBytes maxMb with
      | .failMsg m => ⟨failResult (some fname) m, [.mkdirE, .headE], none⟩
      | .proceed =>
        match env.get with
        | .err m => ⟨failResult (some fname) m, [.mkdirE, .headE, .getE], none⟩
        | .ok ctype chunks tail =>
          match env.openErr with
          | some m => ⟨failResult (some fname) m, [.mkdirE, .headE, .getE], none⟩
          | none =>
            match runStream maxBytes chunks 0 with
            | .exceeded d =>
              ⟨failResult (some fname) (midSizeMsg d maxMb), [.mkdirE, .headE, .getE], none⟩
            | .done total =>
              match tail with
              | some m => ⟨failResult (some fname) m, [.mkdirE, .headE, .getE], some total⟩
              | none =>
                ⟨⟨fpath, finalName, total, ctype, true, none⟩,
                  [.mkdirE, .headE, .getE], some total⟩
  else ⟨failResult filename? invalidUrlMsg, [], none⟩

/-- `download_files` (server.py lines 241-273): one task per URL with
no custom filename, `asyncio.gather` preserving request order, then
counts from the success flags.  `envOf` gives each URL its own
environment; the tasks share no other state. -/
def downloadFiles (envOf : String → Env) (urls : List String)
    (outputDir : String) (maxMb : Nat) : DownloadResponse :=
  let results := urls.map fun u => (downloadSingle (envOf u) u outputDir none maxMb).result
  let successCount := (results.filter fun r => r.success).length
  ⟨results, successCount, results.length - successCount⟩

/-! ## Batch aggregation and result-shape lemmas -/

theorem append_ne_empty_left {a : String} (b : String) (ha : a ≠ "") : a ++ b ≠ "" := by
  intro h
  have hd : a.data ++ b.data = [] := by
    have := congrArg String.data h
    rwa [String.data_append] at this
  exact ha (String.ext (List.append_eq_nil.mp hd).1)

theorem concatPath_ne_empty (a b : String) : a ++ "/" ++ b ≠ "" := by
  intro h
  have hd : (a.data ++ ('/' :: [])) ++ b.data = [] := by
    have := congrArg String.data h
    rwa [String.data_append, String.data_append] at this
  have := (List.append_eq_nil.mp hd).1
  simp at this

/-- Item `i` of a batch is exactly the single-download outcome for
URL `i`: it depends on no other URL of the batch. -/
theorem downloadFiles_result_at (envOf : String → Env) (urls : List String)
    (outputDir : String) (maxMb : Nat) {i : Nat} {u : String}
    (h : urls[i]? = some u) :
    (downloadFiles envOf urls outputDir maxMb).results[i]? =
      some (downloadSingle (envOf u) u outputDir none maxMb).result := by
  unfold downloadFiles
  dsimp only
  rw [List.getElem?_map, h, Option.map_some']

/-- **C1**: a batch of `N` URLs yields exactly `N` results in request
order (`results[i]` is the single-download outcome for `urls[i]`),
`success_count` counts the results whose success flag is true,
`success_count + failed_count = N`, and the empty batch yields the
empty response with both counts zero, not an error. -/
theorem c1_batch_counts (envOf : String → Env) (urls : List String)
    (outputDir : String) (maxMb : Nat) :
    (downloadFiles envOf urls outputDir maxMb).results.length = urls.length ∧
    (∀ (i : Nat) (u : String), urls[i]? = some u →
      (downloadFiles envOf urls outputDir maxMb).results[i]? =
        some (downloadSingle (envOf u) u outputDir none maxMb).result) ∧
    (downloadFiles envOf urls outputDir maxMb).success_count =
      (downloadFiles envOf urls outputDir maxMb).results.countP (fun r => r.success) ∧
    (downloadFiles envOf urls outputDir maxMb).success_count +
      (downloadFiles envOf urls outputDir maxMb).failed_count = urls.length ∧
    (urls = [] → downloadFiles envOf urls outputDir maxMb = ⟨[], 0, 0⟩) := by
  refine ⟨?_, ?_, ?_, ?_, ?_⟩
  · unfold downloadFiles
    dsimp only
    exact List.length_map _ _
  · intro i u h
    exact downloadFiles_result_at envOf urls outputDir maxMb h
  · unfold downloadFiles
    dsimp only
    rw [List.countP_eq_length_filter]
  · unfold downloadFiles
    dsimp only
    have h1 := List.length_filter_le (fun r => r.success)
      (urls.map fun u => (downloadSingle (envOf u) u outputDir none maxMb).result)
    rw [List.length_map] at h1 ⊢
    omega
  · intro h
    subst h
    rfl

/-- A fixed benign environment for witnesses: `mkdir` succeeds, the
probe reports 100 bytes, the GET delivers one 40-byte chunk of
`text/plain`, `open` succeeds, the directory is empty. -/
def envOk : Env := ⟨none, .ok (some "100"), .ok (some "text/plain") [40] none, none, []⟩

/-- An environment whose GET fails with a transport error. -/
def envGetFail : Env := ⟨none, .ok none, .err "Connection refused", none, []⟩

set_option maxRecDepth 8000 in
/-- **C1** witness: the claim theorem applied to a two-URL batch (one
invalid URL) and to the empty batch. -/
theorem c1_witness :
    (downloadFiles (fun _ => envOk) ["https://example.com/data.json", "ftp://x"]
        "/tmp/t" 500).success_count +
      (downloadFiles (fun _ => envOk) ["https://example.com/data.json", "ftp://x"]
        "/tmp/t" 500).failed_count = 2 ∧
    downloadFiles (fun _ => envOk) [] "/tmp/t" 500 = ⟨[], 0, 0⟩ := by
  refine ⟨(c1_batch_counts (fun _ => envOk)
    ["https://example.com/data.json", "ftp://x"] "/tmp/t" 500).2.2.2.1, ?_⟩
  exact (c1_batch_counts (fun _ => envOk) [] "/tmp/t" 500).2.2.2.2 rfl

/-- **C9**: each produced result is consistent — success implies a
nonempty file path, no error, and a size equal to the bytes on disk
at the target; failure implies an empty path, zero size, and an
error message present. -/
theorem c9_result_consistency (env : Env) (url outputDir : String)
    (filename? : Option String) (maxMb : Nat) :
    ((downloadSingle env url outputDir filename? maxMb).result.success = true →
      (downloadSingle env url outputDir filename? maxMb).result.file_path ≠ "" ∧
      (downloadSingle env url outputDir filename? maxMb).result.error = none ∧
      (downloadSingle env url outputDir filename? maxMb).written =
        some (downloadSingle env url outputDir filename? maxMb).result.file_size) ∧
    ((downloadSingle env url outputDir filename? maxMb).result.success = false →
      (downloadSingle env url outputDir filename? maxMb).result.file_path = "" ∧
      (downloadSingle env url outputDir filename? maxMb).result.file_size = 0 ∧
      (downloadSingle env url outputDir filename? maxMb).result.error ≠ none) := by
  unfold downloadSingle
  dsimp only
  split
  · split
    · simp [failResult]
    · split
      · simp [failResult]
      · split
        · simp [failResult]
        · split
          · simp [failResult]
          · split
            · simp [failResult]
            · split
              · simp [failResult]
              · exact ⟨fun _ => ⟨concatPath_ne_empty _ _, rfl, rfl⟩, by simp⟩
  · simp [failResult]

set_option maxRecDepth 8000 in
/-- **C9** witness: the claim theorem applied at a succeeding and at
a failing environment. -/
theorem c9_witness :
    ((downloadSingle envOk "https://example.com/data.json" "/tmp/t" none 500).result.file_path ≠ "" ∧
      (downloadSingle envOk "https://example.com/data.json" "/tmp/t" none 500).result.error = none ∧
      (downloadSingle envOk "https://example.com/data.json" "/tmp/t" none 500).written =
        some (downloadSingle envOk "https://example.com/data.json" "/tmp/t" none 500).result.file_size) ∧
    ((downloadSingle envGetFail "https://example.com/data.json" "/tmp/t" none 500).result.file_path = "" ∧
      (downloadSingle envGetFail "https://example.com/data.json" "/tmp/t" none 500).result.file_size = 0 ∧
      (downloadSingle envGetFail "https://example.com/data.json" "/tmp/t" none 500).result.error ≠ none) := by
  refine ⟨(c9_result_consistency envOk "https://example.com/data.json" "/tmp/t" none 500).1
    (by decide), ?_⟩
  exact (c9_result_consistency envGetFail "https://example.com/data.json" "/tmp/t" none 500).2
    (by decide)

/-! ## Structured failure (C2) -/

/-- Environment well-formedness: every error message the environment
carries is nonempty (a real exception's `str` rendering is never the
empty string for the transport and filesystem errors in scope). -/
def wfEnv (env : Env) : Bool :=
  (match env.mkdirErr with | some m => !(m == "") | none => true) &&
  (match env.head with | .err m => !(m == "") | _ => true) &&
  (match env.get with
   | .err m => !(m == "")
   | .ok _ _ tail => match tail with | some m => !(m == "") | none => true) &&
  (match env.openErr with | some m => !(m == "") | none => true)

theorem intParseMsg_ne (s : String) : intParseMsg s ≠ "" :=
  append_ne_empty_left _ (by decide)

theorem headSizeMsg_ne (size : Int) (maxMb : Nat) : headSizeMsg size maxMb ≠ "" := by
  unfold headSizeMsg
  exact append_ne_empty_left _ (append_ne_empty_left _ (append_ne_empty_left _
    (append_ne_empty_left _ (by decide))))

theorem midSizeMsg_ne (bytes maxMb : Nat) : midSizeMsg bytes maxMb ≠ "" := by
  unfold midSizeMsg
  exact append_ne_empty_left _ (append_ne_empty_left _ (append_ne_empty_left _
    (append_ne_empty_left _ (by decide))))

/-- Every message the probe can fail with is nonempty, given that a
HEAD transport error carries a nonempty message. -/
theorem probeStage_fail_ne {h : HeadOutcome} {maxBytes maxMb : Nat} {m : String}
    (hh : ∀ s, h = HeadOutcome.err s → s ≠ "")
    (heq : probeStage h maxBytes maxMb = .failMsg m) : m ≠ "" := by
  cases h with
  | err s =>
    simp only [probeStage] at heq
    cases heq
    exact hh _ rfl
  | statusErr s => simp [probeStage] at heq
  | ok cl =>
    cases cl with
    | none => simp [probeStage] at heq
    | some s =>
      simp only [probeStage] at heq
      split at heq
      · cases heq
      · split at heq
        · cases heq
          exact intParseMsg_ne _
        · split at heq
          · cases heq
            exact headSizeMsg_ne _ _
          · cases heq

/-- Every failing download carries a nonempty error message, for a
well-formed environment; the embedding is total, so no exception
crosses the call boundary. -/
theorem downloadSingle_failure_msg (env : Env) (url outputDir : String)
    (filename? : Option String) (maxMb : Nat) (hwf : wfEnv env = true) :
    (downloadSingle env url outputDir filename? maxMb).result.success = false →
    ∃ m, (downloadSingle env url outputDir filename? maxMb).result.error = some m ∧ m ≠ "" := by
  unfold wfEnv at hwf
  simp only [Bool.and_eq_true] at hwf
  obtain ⟨⟨⟨h1, h2⟩, h3⟩, h4⟩ := hwf
  unfold downloadSingle
  dsimp only
  split
  · split
    · rename_i m heq
      rw [heq] at h1
      intro _
      exact ⟨m, rfl, by simpa using h1⟩
    · split
      · rename_i m heq
        intro _
        refine ⟨m, rfl, probeStage_fail_ne ?_ heq⟩
        intro s hs
        rw [hs] at h2
        simpa using h2
      · split
        · rename_i m heq
          rw [heq] at h3
          intro _
          exact ⟨m, rfl, by simpa using h3⟩
        · rename_i ctype chunks tail heq
          rw [heq] at h3
          split
          · rename_i m heq2
            rw [heq2] at h4
            intro _
            exact ⟨m, rfl, by simpa using h4⟩
          · split
            · rename_i d heq3
              intro _
              exact ⟨midSizeMsg d maxMb, rfl, midSizeMsg_ne d maxMb⟩
            · split
              · rename_i m
                intro _
                exact ⟨m, rfl, by simpa using h3⟩
              · intro hfalse
                simp at hfalse
  · intro _
    exact ⟨invalidUrlMsg, rfl, by decide⟩

/-- **C2**: every failure surfaces as a structured result —
`success = false` with a nonempty error message — never as an
exception past the call boundary (the embedding is a total
function); and in a batch each item's outcome is the single-download
outcome of its own URL alone, so one item's failure cannot abort or
affect the others. -/
theorem c2_structured_failure (env : Env) (url outputDir : String)
    (filename? : Option String) (maxMb : Nat) (hwf : wfEnv env = true) :
    ((downloadSingle env url outputDir filename? maxMb).result.success = false →
      ∃ m, (downloadSingle env url outputDir filename? maxMb).result.error = some m ∧ m ≠ "") ∧
    (∀ (envOf : String → Env) (urls : List String) (i : Nat) (u : String),
      urls[i]? = some u →
      (downloadFiles envOf urls outputDir maxMb).results[i]? =
        some (downloadSingle (envOf u) u outputDir none maxMb).result) :=
  ⟨downloadSingle_failure_msg env url outputDir filename? maxMb hwf,
    fun envOf urls _ _ h => downloadFiles_result_at envOf urls outputDir maxMb h⟩

set_option maxRecDepth 8000 in
/-- **C2** witness: the claim theorem applied at a transport-failure
environment. -/
theorem c2_witness :
    wfEnv envGetFail = true ∧
      ∃ m, (downloadSingle envGetFail "https://example.com/data.json" "/tmp/t" none
        500).result.error = some m ∧ m ≠ "" := by
  refine ⟨by decide, ?_⟩
  exact (c2_structured_failure envGetFail "https://example.com/data.json" "/tmp/t" none 500
    (by decide)).1 (by decide)

/-! ## Scheme validation (C8) -/

/-- The scheme component the URL parser assigns to a URL. -/
def schemeOf (url : String) : List Char := (splitScheme (removeUnsafe url.data)).1

theorem removeUnsafe_append (l1 l2 : List Char) :
    removeUnsafe (l1 ++ l2) = removeUnsafe l1 ++ removeUnsafe l2 := by
  unfold removeUnsafe
  exact List.filter_append l1 l2

theorem takeWhile_http (r : List Char) :
    (('h' :: 't' :: 't' :: 'p' :: ':' :: r).takeWhile fun c => !(c == ':')) =
      ['h', 't', 't', 'p'] := by
  rw [List.takeWhile_cons_of_pos (by decide), List.takeWhile_cons_of_pos (by decide),
    List.takeWhile_cons_of_pos (by decide), List.takeWhile_cons_of_pos (by decide),
    List.takeWhile_cons_of_neg (by decide)]

theorem takeWhile_https (r : List Char) :
    (('h' :: 't' :: 't' :: 'p' :: 's' :: ':' :: r).takeWhile fun c => !(c == ':')) =
      ['h', 't', 't', 'p', 's'] := by
  rw [List.takeWhile_cons_of_pos (by decide), List.takeWhile_cons_of_pos (by decide),
    List.takeWhile_cons_of_pos (by decide), List.takeWhile_cons_of_pos (by decide),
    List.takeWhile_cons_of_pos (by decide), List.takeWhile_cons_of_neg (by decide)]

theorem splitScheme_http (r : List Char) :
    splitScheme ('h' :: 't' :: 't' :: 'p' :: ':' :: r) = ("http".data, r) := by
  unfold splitScheme
  rw [takeWhile_http]
  rw [if_pos ?hc]
  case hc =>
    simp only [List.length_cons, List.length_nil, Bool.and_eq_true, decide_eq_true_eq]
    refine ⟨⟨⟨by omega, by omega⟩, by decide⟩, by decide⟩
  simp only [Prod.mk.injEq]
  exact ⟨by decide, by simp⟩

theorem splitScheme_https (r : List Char) :
    splitScheme ('h' :: 't' :: 't' :: 'p' :: 's' :: ':' :: r) = ("https".data, r) := by
  unfold splitScheme
  rw [takeWhile_https]
  rw [if_pos ?hc]
  case hc =>
    simp only [List.length_cons, List.length_nil, Bool.and_eq_true, decide_eq_true_eq]
    refine ⟨⟨⟨by omega, by omega⟩, by decide⟩, by decide⟩
  simp only [Prod.mk.injEq]
  exact ⟨by decide, by simp⟩

theorem schemeOf_of_http_start {url : String} {r : List Char}
    (h : url.data = "http://".data ++ r) : schemeOf url = "http".data := by
  unfold schemeOf
  rw [h, removeUnsafe_append, show removeUnsafe ("http://".data) = "http://".data from by decide]
  show (splitScheme ('h' :: 't' :: 't' :: 'p' :: ':' :: ('/' :: '/' :: removeUnsafe r))).1 = _
  rw [splitScheme_http]

theorem schemeOf_of_https_start {url : String} {r : List Char}
    (h : url.data = "https://".data ++ r) : schemeOf url = "https".data := by
  unfold schemeOf
  rw [h, removeUnsafe_append, show removeUnsafe ("https://".data) = "https://".data from by decide]
  show (splitScheme ('h' :: 't' :: 't' :: 'p' :: 's' :: ':' :: ('/' :: '/' :: removeUnsafe r))).1 = _
  rw [splitScheme_https]

/-- A URL whose parsed scheme is neither `http` nor `https` cannot
pass `url.startswith(("http://", "https://"))`. -/
theorem not_startsWith_of_scheme {url : String}
    (h1 : schemeOf url ≠ "http".data) (h2 : schemeOf url ≠ "https".data) :
    pyStartsWithHttp url = false := by
  unfold pyStartsWithHttp
  cases hp : "http://".data.isPrefixOf url.data with
  | true =>
    exfalso
    obtain ⟨r, hr⟩ := List.isPrefixOf_iff_prefix.mp hp
    exact h1 (schemeOf_of_http_start hr.symm)
  | false =>
    cases hp2 : "https://".data.isPrefixOf url.data with
    | true =>
      exfalso
      obtain ⟨r, hr⟩ := List.isPrefixOf_iff_prefix.mp hp2
      exact h2 (schemeOf_of_https_start hr.symm)
    | false => rfl

/-- **C8**: a URL whose scheme is neither `http` nor `https` fails
fast with the URL-format validation error: `success = false`, the
error names the URL format, the error message is nonempty, and no
request of any kind is issued — the events trace is empty and
nothing is written. -/
theorem c8_invalid_scheme (env : Env) (url outputDir : String)
    (filename? : Option String) (maxMb : Nat)
    (h1 : schemeOf url ≠ "http".data) (h2 : schemeOf url ≠ "https".data) :
    (downloadSingle env url outputDir filename? maxMb).result.success = false ∧
    (downloadSingle env url outputDir filename? maxMb).result.error = some invalidUrlMsg ∧
    invalidUrlMsg ≠ "" ∧
    (downloadSingle env url outputDir filename? maxMb).events = [] ∧
    (downloadSingle env url outputDir filename? maxMb).written = none := by
  have hsw := not_startsWith_of_scheme h1 h2
  unfold downloadSingle
  rw [hsw]
  exact ⟨rfl, rfl, by decide, rfl, rfl⟩

/-- **C8** witness: the claim theorem applied at an `ftp` URL. -/
theorem c8_witness :
    (downloadSingle envOk "ftp://example.com/f.bin" "/tmp/t" none 500).result.error =
        some invalidUrlMsg ∧
      (downloadSingle envOk "ftp://example.com/f.bin" "/tmp/t" none 500).events = [] := by
  have h := c8_invalid_scheme envOk "ftp://example.com/f.bin" "/tmp/t" none 500
    (by decide) (by decide)
  exact ⟨h.2.1, h.2.2.2.1⟩

/-! ## Mid-stream size abort (C3) -/

/-- What the chunk loop does when some prefix of the stream exceeds
the budget: it stops at the first such prefix, reporting the running
total including the offending chunk, with every earlier prefix
within budget. -/
theorem runStream_spec (maxBytes : Nat) :
    ∀ (chunks : List Nat) (acc : Nat), acc ≤ maxBytes →
      (∃ k, maxBytes < acc + (chunks.take k).sum) →
      ∃ k, maxBytes < acc + (chunks.take k).sum ∧
        (∀ j, j < k → acc + (chunks.take j).sum ≤ maxBytes) ∧
        runStream maxBytes chunks acc = .exceeded (acc + (chunks.take k).sum) := by
  intro chunks
  induction chunks with
  | nil =>
    rintro acc hacc ⟨k, hk⟩
    simp only [List.take_nil, List.sum_nil] at hk
    omega
  | cons c rest ih =>
    rintro acc hacc ⟨k, hk⟩
    by_cases hc : maxBytes < acc + c
    · refine ⟨1, ?_, ?_, ?_⟩
      · simpa using hc
      · intro j hj
        interval_cases j
        simpa using hacc
      · have h1 : ((c :: rest).take 1).sum = c := by simp
        rw [h1]
        simp [runStream, hc]
    · push_neg at hc
      have hk' : ∃ j, maxBytes < (acc + c) + (rest.take j).sum := by
        cases k with
        | zero => simp at hk; omega
        | succ k =>
          refine ⟨k, ?_⟩
          simp only [List.take_succ_cons, List.sum_cons] at hk
          omega
      obtain ⟨k', hk1, hk2, hk3⟩ := ih (acc + c) hc hk'
      refine ⟨k' + 1, ?_, ?_, ?_⟩
      · simp only [List.take_succ_cons, List.sum_cons]
        omega
      · intro j hj
        cases j with
        | zero => simpa using hacc
        | succ j =>
          have := hk2 j (by omega)
          simp only [List.take_succ_cons, List.sum_cons]
          omega
      · have hb : ¬ maxBytes < acc + c := by omega
        simp only [runStream, if_neg hb]
        rw [hk3]
        congr 1
        simp only [List.take_succ_cons, List.sum_cons]
        omega

/-- **C3**: whenever the running byte total of the stream exceeds the
budget mid-stream (while URL validation, directory creation, probe,
request and file open all pass), the fetch aborts at the first
offending prefix: the result is a failure whose error message is the
size-exceeded rendering of the actual number of bytes transferred so
far (the running total including the offending chunk), and no file
remains at the target path. -/
theorem c3_midstream_abort (env : Env) (url outputDir : String)
    (filename? : Option String) (maxMb : Nat) (ctype : Option String)
    (chunks : List Nat) (tail : Option String)
    (hurl : pyStartsWithHttp url = true)
    (hmk : env.mkdirErr = none)
    (hprobe : probeStage env.head (maxMb * 1024 * 1024) maxMb = .proceed)
    (hget : env.get = .ok ctype chunks tail)
    (hopen : env.openErr = none)
    (hex : ∃ k, maxMb * 1024 * 1024 < (chunks.take k).sum) :
    ∃ k, maxMb * 1024 * 1024 < (chunks.take k).sum ∧
      (∀ j, j < k → (chunks.take j).sum ≤ maxMb * 1024 * 1024) ∧
      (downloadSingle env url outputDir filename? maxMb).result.success = false ∧
      (downloadSingle env url outputDir filename? maxMb).result.error =
        some (midSizeMsg ((chunks.take k).sum) maxMb) ∧
      (downloadSingle env url outputDir filename? maxMb).written = none := by
  obtain ⟨k, hk1, hk2, hk3⟩ := runStream_spec (maxMb * 1024 * 1024) chunks 0 (Nat.zero_le _)
    (by obtain ⟨k, hk⟩ := hex; exact ⟨k, by omega⟩)
  rw [Nat.zero_add] at hk1 hk3
  have hval : downloadSingle env url outputDir filename? maxMb =
      ⟨failResult (some (match filename? with
          | none => extractFilenameFromUrl url
          | some f => sanitizeFilename f)) (midSizeMsg ((chunks.take k).sum) maxMb),
        [.mkdirE, .headE, .getE], none⟩ := by
    unfold downloadSingle
    rw [if_pos hurl, hmk]
    dsimp only
    rw [hprobe]
    dsimp only
    rw [hget]
    dsimp only
    rw [hopen]
    dsimp only
    rw [hk3]
  refine ⟨k, hk1, ?_, ?_, ?_, ?_⟩
  · intro j hj
    have := hk2 j hj
    omega
  · simp [hval, failResult]
  · simp [hval, failResult]
  · simp [hval, failResult]

/-- A remote body of two 300 MB chunks, exceeding a 500 MB budget. -/
def envBig : Env := ⟨none, .ok none, .ok none [300000000, 300000000] none, none, []⟩

/-- **C3** witness: the claim theorem applied at a 600 MB body
against a 500 MB budget. -/
theorem c3_witness :
    (downloadSingle envBig "http://example.com/big.iso" "/tmp/t" (some "big.iso")
        500).result.success = false ∧
      (downloadSingle envBig "http://example.com/big.iso" "/tmp/t" (some "big.iso")
        500).written = none := by
  obtain ⟨k, -, -, h3, -, h5⟩ := c3_midstream_abort envBig "http://example.com/big.iso"
    "/tmp/t" (some "big.iso") 500 none [300000000, 300000000] none
    (by decide) rfl (by decide) rfl rfl ⟨2, by decide⟩
  exact ⟨h3, h5⟩

/-! ## The probe is not advisory (C4)

The spec says a failing HEAD probe is tolerated and the fetch
proceeds to streaming.  The source wraps the probe in
`try ... except httpx.HTTPStatusError: pass` — but `client.head`
never raises `HTTPStatusError` (no `raise_for_status` is called on
its response); what it does raise on network failure are transport
errors, which this clause does not catch, so they propagate to the
outer handler and fail the whole download.  The dead `except`
documents the intent the spec describes; the exception class is the
slip. -/

/-- HEAD fails with a transport error; the GET would succeed. -/
def envProbeDown : Env :=
  ⟨none, .err "Connection reset by peer", .ok (some "text/plain") [10] none, none, []⟩

/-- Same server, but the probe failure is an `HTTPStatusError`. -/
def envProbe405 : Env :=
  ⟨none, .statusErr "Method Not Allowed", .ok (some "text/plain") [10] none, none, []⟩

/-- A probe reporting a 600 MB content-length against a 500 MB cap. -/
def envHeadBig : Env :=
  ⟨none, .ok (some "600000000"), .ok (some "text/plain") [10] none, none, []⟩

set_option maxRecDepth 8000 in
/-- **C4** (code-bug demonstration).  First half of the claim holds:
an oversized content-length fails immediately, before any body
request.  Second half fails in the code: a HEAD transport error is
not swallowed — the download fails with that error and the GET is
never issued, even though the same GET succeeds when the probe
failure is of the (unraisable) `HTTPStatusError` class the `except`
names. -/
theorem c4_probe_behaviour :
    ((downloadSingle envHeadBig "http://example.com/a.txt" "/tmp/t" (some "a.txt")
        500).result.error = some (headSizeMsg 600000000 500) ∧
      (downloadSingle envHeadBig "http://example.com/a.txt" "/tmp/t" (some "a.txt")
        500).events = [Ev.mkdirE, Ev.headE]) ∧
    ((downloadSingle envProbeDown "http://example.com/a.txt" "/tmp/t" (some "a.txt")
        500).result.success = false ∧
      (downloadSingle envProbeDown "http://example.com/a.txt" "/tmp/t" (some "a.txt")
        500).result.error = some "Connection reset by peer" ∧
      (downloadSingle envProbeDown "http://example.com/a.txt" "/tmp/t" (some "a.txt")
        500).events = [Ev.mkdirE, Ev.headE]) ∧
    (downloadSingle envProbe405 "http://example.com/a.txt" "/tmp/t" (some "a.txt")
        500).result.success = true := by
  decide

end Download
